import Mathlib

/-!
Shallow embedding of the OSRS flip-finder analytics core
(`flip_finder.py`: `GlobalFlipFinder._get_window_bounds`,
`load_window_dataframe`, `compute_flip_table`) over the SQLite schema
created by `osrs_v2.py` (`items` with integer primary key `id`,
`prices` with integer columns and primary key `(scan_ts, item_id)`).

Prices are integers (the store's column type); derived statistics
(means, linear-interpolation quantiles, margins, ROI) are rationals.
`pandas.round` / numpy rounding is round-half-to-even, modelled by
`roundHalfEven` on ℚ.
-/

/-- One row of the `prices` table: `(scan_ts, item_id, high, low)`;
`high`/`low` are nullable. (`highTime`/`lowTime` are never read by the
analytics core and are omitted.) -/
structure PriceRow where
  scan_ts : Int
  item_id : Int
  high : Option Int
  low : Option Int
  deriving Repr, DecidableEq

/-- One row of the `items` table (the columns the core selects). -/
structure ItemRow where
  id : Int
  name : String
  members : Int
  limit : Option Int
  value : Option Int
  deriving Repr, DecidableEq

/-- The persistent store: the `prices` and `items` tables, in insertion
order. -/
structure Store where
  prices : List PriceRow
  items : List ItemRow
  deriving Repr, DecidableEq

/-- One row of the loaded window DataFrame: a price sample joined with
its item metadata, plus the derived `spread` column. -/
structure WinRow where
  item_id : Int
  scan_ts : Int
  high : Int
  low : Int
  name : String
  members : Int
  limit : Option Int
  value : Option Int
  spread : Int
  deriving Repr, DecidableEq

/-- Maximum of a list of integers, `none` on the empty list
(`SELECT MAX(scan_ts) FROM prices`). -/
def listMaxInt : List Int → Option Int
  | [] => none
  | x :: xs => some (xs.foldl max x)

/-- `SELECT MAX(scan_ts) FROM prices`, i.e. the storage collaborator's
`max_scan_timestamp()` operation. -/
def max_scan_timestamp (s : Store) : Option Int :=
  listMaxInt (s.prices.map (·.scan_ts))

/-- `GlobalFlipFinder._get_window_bounds`: global latest scan_ts minus
`since_minutes * 60`, or `none` if the prices table is empty. -/
def get_window_bounds (s : Store) (since_minutes : Int) : Option Int :=
  match max_scan_timestamp s with
  | none => none
  | some max_ts => some (max_ts - since_minutes * 60)

/-- The joined row built by the loader's SELECT, with the derived
`spread = high - low` column added by `load_window_dataframe`. -/
def toWinRow (p : PriceRow) (i : ItemRow) (h l : Int) : WinRow :=
  { item_id := p.item_id, scan_ts := p.scan_ts, high := h, low := l,
    name := i.name, members := i.members, limit := i.limit, value := i.value,
    spread := h - l }

/-- `GlobalFlipFinder.load_window_dataframe`: all price samples with
`scan_ts >= window_start` and both quotes non-null, inner-joined to
`items` on `item_id = id`, with `spread = high - low`. Empty when the
store is empty. -/
def load_window_dataframe (s : Store) (since_minutes : Int) : List WinRow :=
  match get_window_bounds s since_minutes with
  | none => []
  | some window_start =>
    s.prices.flatMap (fun p =>
      match p.high, p.low with
      | some h, some l =>
        if window_start ≤ p.scan_ts then
          (s.items.filter (fun i => i.id = p.item_id)).map
            (fun i => toWinRow p i h l)
        else []
      | _, _ => [])

/-- Round-half-to-even to the nearest integer, the rounding mode of
`numpy`/`pandas.round` (and Python's built-in `round`). -/
def roundHalfEven (x : ℚ) : Int :=
  if x - ⌊x⌋ < 1/2 then ⌊x⌋
  else if 1/2 < x - ⌊x⌋ then ⌊x⌋ + 1
  else if ⌊x⌋ % 2 = 0 then ⌊x⌋ else ⌊x⌋ + 1

/-- `Series.round(d)`: round-half-even at `d` decimal places. -/
def roundTo (d : Nat) (x : ℚ) : ℚ :=
  (roundHalfEven (x * 10 ^ d) : ℚ) / 10 ^ d

/-- Insertion into an ascending integer list. -/
def insertAsc (x : Int) : List Int → List Int
  | [] => [x]
  | y :: ys => if x ≤ y then x :: y :: ys else y :: insertAsc x ys

/-- Ascending sort of an integer list (the sort a quantile computation
performs on the column values). -/
def sortAscInt (xs : List Int) : List Int := xs.foldr insertAsc []

/-- `Series.quantile(q)` with the default linear interpolation method:
with ascending values `v₀ … vₙ₋₁` and `h = q * (n - 1)`, the result is
`v⌊h⌋ + (h - ⌊h⌋) * (v⌊h⌋₊₁ - v⌊h⌋)`. Returns `0` on an empty list
(never hit: groups are non-empty). -/
def quantileLin (q : ℚ) (xs : List Int) : ℚ :=
  let v := sortAscInt xs
  let h : ℚ := q * ((v.length : ℚ) - 1)
  let j : Nat := (⌊h⌋).toNat
  let g : ℚ := h - ⌊h⌋
  let a : ℚ := ((v.getD j 0 : Int) : ℚ)
  let b : ℚ := ((v.getD (j + 1) 0 : Int) : ℚ)
  a + g * (b - a)

/-- Insertion into an ascending duplicate-free integer list; used to
model the sorted, deduplicated group keys `pandas.groupby` produces. -/
def insertKey (x : Int) : List Int → List Int
  | [] => [x]
  | y :: ys =>
    if x < y then x :: y :: ys
    else if x = y then y :: ys
    else y :: insertKey x ys

/-- The sorted, duplicate-free list of group keys of
`df.groupby("item_id")` (groupby sorts keys ascending by default). -/
def groupKeys (xs : List Int) : List Int := xs.foldr insertKey []

/-- Stable insertion for a descending sort by a rational key. -/
def insertDesc {α : Type} (key : α → ℚ) (x : α) : List α → List α
  | [] => [x]
  | y :: ys => if key y ≤ key x then x :: y :: ys else y :: insertDesc key x ys

/-- Stable descending sort by a rational key, modelling
`DataFrame.sort_values(col, ascending=False)` (the source fixes no
tie-break, so any order-correct sort refines it). -/
def sortDesc {α : Type} (key : α → ℚ) : List α → List α
  | [] => []
  | x :: xs => insertDesc key x (sortDesc key xs)

/-- The per-item columns computed by `compute_flip_table` before any
rounding: the latest-scan snapshot (`idxmax` keeps the first row
attaining the maximum `scan_ts`), window aggregates, the quantile
zones, and the first-row metadata. -/
structure RawStats where
  item_id : Int
  name : String
  members : Int
  limit : Option Int
  value : Option Int
  avg_spread : ℚ
  max_spread : ℚ
  samples : Nat
  current_high : ℚ
  current_low : ℚ
  current_spread : ℚ
  buy_zone : ℚ
  sell_zone : ℚ
  deriving Repr, DecidableEq

/-- The group of `df` rows for item `i` and its per-item statistics;
`none` when the item has no rows (never the case for a group key). -/
def perItemStats (df : List WinRow) (i : Int) : Option RawStats :=
  match df.filter (fun r => r.item_id = i) with
  | [] => none
  | x :: xs =>
    let sub := x :: xs
    let cur := xs.foldl (fun b r => if b.scan_ts < r.scan_ts then r else b) x
    some
      { item_id := i
        name := x.name
        members := x.members
        limit := x.limit
        value := x.value
        avg_spread := (sub.map (fun r => (r.spread : ℚ))).sum / (sub.length : ℚ)
        max_spread := ((xs.foldl (fun m r => max m r.spread) x.spread : Int) : ℚ)
        samples := sub.length
        current_high := ((cur.high : Int) : ℚ)
        current_low := ((cur.low : Int) : ℚ)
        current_spread := ((cur.spread : Int) : ℚ)
        buy_zone := quantileLin (1/4) (sub.map (·.low))
        sell_zone := quantileLin (3/4) (sub.map (·.high)) }

/-- The unrounded margin `sell_zone - buy_zone` of line 154. -/
def marginU (r : RawStats) : ℚ := r.sell_zone - r.buy_zone

/-- One output row of `compute_flip_table`. `item_id` is the groupby
index (dropped only by the final cosmetic `reset_index`); all rational
fields carry the rounded values the code stores into the frame. -/
structure FlipRow where
  item_id : Int
  name : String
  members : Int
  limit : Option Int
  value : Option Int
  samples : Nat
  current_high : ℚ
  current_low : ℚ
  current_spread : ℚ
  avg_spread : ℚ
  max_spread : ℚ
  buy_zone : ℚ
  sell_zone : ℚ
  margin : ℚ
  roi_pct : ℚ
  deriving Repr, DecidableEq

/-- Lines 154–163: margin, ROI from the unrounded margin and buy zone,
then rounding of the currency-scale columns to 1 decimal and of
`roi_pct` to 2 decimals. -/
def mkFlipRow (r : RawStats) : FlipRow :=
  { item_id := r.item_id
    name := r.name
    members := r.members
    limit := r.limit
    value := r.value
    samples := r.samples
    current_high := roundTo 1 r.current_high
    current_low := roundTo 1 r.current_low
    current_spread := roundTo 1 r.current_spread
    avg_spread := roundTo 1 r.avg_spread
    max_spread := roundTo 1 r.max_spread
    buy_zone := roundTo 1 r.buy_zone
    sell_zone := roundTo 1 r.sell_zone
    margin := roundTo 1 (marginU r)
    roi_pct := roundTo 2 (marginU r / r.buy_zone * 100) }

/-- The per-item statistics rows surviving the `buy_zone > 0` guard of
line 156, one per group key, in ascending `item_id` order — the state
of the frame just before rounding. -/
def flipCandidates (s : Store) (since_minutes : Int) : List RawStats :=
  let df := load_window_dataframe s since_minutes
  if df.isEmpty then []
  else
    ((groupKeys (df.map (·.item_id))).filterMap (perItemStats df)).filter
      (fun r => decide (0 < r.buy_zone))

/-- `GlobalFlipFinder.compute_flip_table`: the candidates, rounded
(line 160–163), filtered by rounded `margin > 0` and `samples >= 5`
(line 166), and sorted by rounded margin descending (line 169). -/
def compute_flip_table (s : Store) (since_minutes : Int) : List FlipRow :=
  sortDesc (fun r => r.margin)
    (((flipCandidates s since_minutes).map mkFlipRow).filter
      (fun r => decide (0 < r.margin) && decide (5 ≤ r.samples)))

/-- The same pipeline with the margin filter and the final sort applied
to the **unrounded** margins (the spec's reading of lines 154–169): each
candidate is paired with its unrounded margin, the filter tests the
unrounded value, and the sort key is the unrounded value. -/
def compute_flip_table_unroundedFS (s : Store) (since_minutes : Int) : List FlipRow :=
  (sortDesc (fun p => p.2)
    (((flipCandidates s since_minutes).map (fun r => (mkFlipRow r, marginU r))).filter
      (fun p => decide (0 < p.2) && decide (5 ≤ p.1.samples)))).map Prod.fst

/-! ### Rounding lemmas -/

theorem roundHalfEven_le (x : ℚ) : (roundHalfEven x : ℚ) ≤ x + 1/2 := by
  have h0 : (⌊x⌋ : ℚ) ≤ x := Int.floor_le x
  rw [roundHalfEven]
  split_ifs with h1 h2 h3
  · linarith
  · push_cast
    linarith
  · linarith
  · push_cast
    linarith

theorem le_roundHalfEven (x : ℚ) : x - 1/2 ≤ (roundHalfEven x : ℚ) := by
  have h1 : x < ⌊x⌋ + 1 := Int.lt_floor_add_one x
  rw [roundHalfEven]
  split_ifs with hc1 hc2 hc3
  · linarith
  · push_cast
    linarith
  · linarith
  · push_cast
    linarith

/-- Rationals whose quadruple is an integer: the possible values of a
25th or 75th linear-interpolation percentile of integer data, and hence
of the margins of `compute_flip_table`. -/
def QuarterGrid (x : ℚ) : Prop := ∃ k : Int, 4 * x = (k : ℚ)

theorem QuarterGrid.sub {x y : ℚ} (hx : QuarterGrid x) (hy : QuarterGrid y) :
    QuarterGrid (x - y) := by
  obtain ⟨k, hk⟩ := hx
  obtain ⟨j, hj⟩ := hy
  exact ⟨k - j, by push_cast; linarith⟩

theorem QuarterGrid.quarter_le {x : ℚ} (hx : QuarterGrid x) (h : 0 < x) : 1/4 ≤ x := by
  obtain ⟨k, hk⟩ := hx
  have hk0 : (0 : ℚ) < (k : ℚ) := by linarith
  have : (1 : Int) ≤ k := by exact_mod_cast hk0
  have : (1 : ℚ) ≤ (k : ℚ) := by exact_mod_cast this
  linarith

theorem QuarterGrid.gap {x y : ℚ} (hx : QuarterGrid x) (hy : QuarterGrid y)
    (h : x < y) : x + 1/4 ≤ y := by
  obtain ⟨k, hk⟩ := hx
  obtain ⟨j, hj⟩ := hy
  have hkj : (k : ℚ) < (j : ℚ) := by linarith
  have : k + 1 ≤ j := by exact_mod_cast hkj
  have : ((k : ℚ) + 1) ≤ (j : ℚ) := by exact_mod_cast this
  linarith

theorem quantileLin_grid (q : ℚ) (m : Int) (hm : (m : ℚ) = 4 * q) (xs : List Int) :
    QuarterGrid (quantileLin q xs) := by
  simp only [quantileLin]
  set v := sortAscInt xs with hv
  set h : ℚ := q * ((v.length : ℚ) - 1) with hh
  set av : Int := v.getD (⌊h⌋).toNat 0 with hav
  set bv : Int := v.getD ((⌊h⌋).toNat + 1) 0 with hbv
  refine ⟨4 * av + (m * ((v.length : Int) - 1) - 4 * ⌊h⌋) * (bv - av), ?_⟩
  have h4 : 4 * h = (m : ℚ) * ((v.length : ℚ) - 1) := by rw [hh, hm]; ring
  push_cast
  linear_combination ((bv : ℚ) - (av : ℚ)) * h4

theorem roundTo_one_eq (x : ℚ) : roundTo 1 x = (roundHalfEven (x * 10) : ℚ) / 10 := by
  rw [roundTo]
  norm_num

theorem roundTo_one_nonpos {x : ℚ} (h : x ≤ 0) : roundTo 1 x ≤ 0 := by
  have hb := roundHalfEven_le (x * 10)
  have h10 : x * 10 ≤ 0 := by nlinarith
  have hint : (roundHalfEven (x * 10) : ℚ) ≤ 1/2 := by linarith
  have hint2 : roundHalfEven (x * 10) ≤ 0 := by
    by_contra hc
    push_neg at hc
    have h1 : (1 : Int) ≤ roundHalfEven (x * 10) := hc
    have h2 : (1 : ℚ) ≤ (roundHalfEven (x * 10) : ℚ) := by exact_mod_cast h1
    linarith
  have hc2 : (roundHalfEven (x * 10) : ℚ) ≤ 0 := by exact_mod_cast hint2
  rw [roundTo_one_eq]
  linarith

theorem roundTo_one_pos {x : ℚ} (hx : QuarterGrid x) (h : 0 < x) : 0 < roundTo 1 x := by
  have hq : 1/4 ≤ x := hx.quarter_le h
  have hb := le_roundHalfEven (x * 10)
  have h52 : (2 : ℚ) ≤ x * 10 - 1/2 := by nlinarith
  have h2 : (2 : ℚ) ≤ (roundHalfEven (x * 10) : ℚ) := by linarith
  rw [roundTo_one_eq]
  linarith

theorem roundTo_one_pos_iff {x : ℚ} (hx : QuarterGrid x) : 0 < roundTo 1 x ↔ 0 < x := by
  constructor
  · intro h
    by_contra hc
    push_neg at hc
    exact absurd h (not_lt.mpr (roundTo_one_nonpos hc))
  · exact roundTo_one_pos hx

theorem roundTo_one_lt {x y : ℚ} (hx : QuarterGrid x) (hy : QuarterGrid y)
    (h : x < y) : roundTo 1 x < roundTo 1 y := by
  have hgap : x + 1/4 ≤ y := hx.gap hy h
  have hb1 := roundHalfEven_le (x * 10)
  have hb2 := le_roundHalfEven (y * 10)
  have hlt : (roundHalfEven (x * 10) : ℚ) < (roundHalfEven (y * 10) : ℚ) := by
    nlinarith
  rw [roundTo_one_eq, roundTo_one_eq]
  linarith

theorem roundTo_one_le_iff {x y : ℚ} (hx : QuarterGrid x) (hy : QuarterGrid y) :
    roundTo 1 x ≤ roundTo 1 y ↔ x ≤ y := by
  constructor
  · intro h
    by_contra hc
    push_neg at hc
    exact absurd h (not_le.mpr (roundTo_one_lt hy hx hc))
  · intro h
    rcases lt_or_eq_of_le h with hlt | heq
    · exact le_of_lt (roundTo_one_lt hx hy hlt)
    · rw [heq]

/-! ### Sorting lemmas -/

theorem insertDesc_perm {α : Type} (key : α → ℚ) (x : α) :
    ∀ l : List α, (insertDesc key x l).Perm (x :: l)
  | [] => List.Perm.refl _
  | y :: ys => by
    simp only [insertDesc]
    split_ifs with h
    · exact List.Perm.refl _
    · exact ((insertDesc_perm key x ys).cons y).trans (List.Perm.swap x y ys)

theorem sortDesc_perm {α : Type} (key : α → ℚ) :
    ∀ l : List α, (sortDesc key l).Perm l
  | [] => List.Perm.refl _
  | x :: xs => by
    simp only [sortDesc]
    exact (insertDesc_perm key x (sortDesc key xs)).trans ((sortDesc_perm key xs).cons x)

theorem sortDesc_mem {α : Type} (key : α → ℚ) (l : List α) (a : α) :
    a ∈ sortDesc key l ↔ a ∈ l :=
  (sortDesc_perm key l).mem_iff

theorem insertDesc_chain' {α : Type} (key : α → ℚ) (x : α) :
    ∀ l : List α, List.Chain' (fun a b => key b ≤ key a) l →
      List.Chain' (fun a b => key b ≤ key a) (insertDesc key x l)
  | [], _ => List.chain'_singleton x
  | y :: ys, h => by
    simp only [insertDesc]
    split_ifs with hyx
    · exact List.chain'_cons.mpr ⟨hyx, h⟩
    · have hxy : key x ≤ key y := le_of_lt (lt_of_not_le hyx)
      cases ys with
      | nil =>
        simp only [insertDesc]
        exact List.chain'_pair.mpr hxy
      | cons z zs =>
        have hyz := (List.chain'_cons.mp h).1
        have ht := (List.chain'_cons.mp h).2
        have ih := insertDesc_chain' key x (z :: zs) ht
        rw [List.chain'_cons']
        refine ⟨?_, ih⟩
        intro w hw
        simp only [insertDesc] at hw
        split_ifs at hw with hzx
        · simp only [List.head?_cons, Option.mem_def, Option.some.injEq] at hw
          rw [← hw]
          exact hxy
        · simp only [List.head?_cons, Option.mem_def, Option.some.injEq] at hw
          rw [← hw]
          exact hyz

theorem sortDesc_chain' {α : Type} (key : α → ℚ) :
    ∀ l : List α, List.Chain' (fun a b => key b ≤ key a) (sortDesc key l)
  | [] => List.chain'_nil
  | x :: xs => insertDesc_chain' key x (sortDesc key xs) (sortDesc_chain' key xs)

theorem insertDesc_congr {α : Type} (k1 k2 : α → ℚ) (x : α) :
    ∀ l : List α, (∀ b ∈ l, (k1 b ≤ k1 x ↔ k2 b ≤ k2 x)) →
      insertDesc k1 x l = insertDesc k2 x l
  | [], _ => rfl
  | y :: ys, h => by
    simp only [insertDesc]
    have hy := h y (List.mem_cons_self y ys)
    by_cases hc : k1 y ≤ k1 x
    · rw [if_pos hc, if_pos (hy.mp hc)]
    · rw [if_neg hc, if_neg (fun hc2 => hc (hy.mpr hc2)),
        insertDesc_congr k1 k2 x ys (fun b hb => h b (List.mem_cons_of_mem y hb))]

theorem sortDesc_congr {α : Type} (k1 k2 : α → ℚ) :
    ∀ l : List α, (∀ a ∈ l, ∀ b ∈ l, (k1 a ≤ k1 b ↔ k2 a ≤ k2 b)) →
      sortDesc k1 l = sortDesc k2 l
  | [], _ => rfl
  | x :: xs, h => by
    simp only [sortDesc]
    have hrec : sortDesc k1 xs = sortDesc k2 xs :=
      sortDesc_congr k1 k2 xs (fun a ha b hb =>
        h a (List.mem_cons_of_mem x ha) b (List.mem_cons_of_mem x hb))
    rw [hrec]
    exact insertDesc_congr k1 k2 x (sortDesc k2 xs) (fun b hb =>
      h b (List.mem_cons_of_mem x ((sortDesc_mem k2 xs b).mp hb))
        x (List.mem_cons_self x xs))

theorem insertDesc_map {α β : Type} (key : β → ℚ) (f : α → β) (x : α) :
    ∀ l : List α,
      insertDesc key (f x) (l.map f) = (insertDesc (fun a => key (f a)) x l).map f
  | [] => rfl
  | y :: ys => by
    simp only [List.map_cons, insertDesc]
    split_ifs with h
    · simp only [List.map_cons]
    · simp only [List.map_cons, insertDesc_map key f x ys]

theorem sortDesc_map {α β : Type} (key : β → ℚ) (f : α → β) :
    ∀ l : List α, sortDesc key (l.map f) = (sortDesc (fun a => key (f a)) l).map f
  | [] => rfl
  | x :: xs => by
    simp only [List.map_cons, sortDesc, sortDesc_map key f xs]
    exact insertDesc_map key f x (sortDesc (fun a => key (f a)) xs)

/-! ### Group-key lemmas -/

theorem insertKey_mem (x a : Int) :
    ∀ l : List Int, a ∈ insertKey x l ↔ a = x ∨ a ∈ l
  | [] => by simp [insertKey]
  | y :: ys => by
    simp only [insertKey]
    split_ifs with h1 h2
    · simp [List.mem_cons]
    · subst h2
      simp only [List.mem_cons]
      tauto
    · simp only [List.mem_cons, insertKey_mem x a ys]
      tauto

theorem groupKeys_mem (xs : List Int) (a : Int) : a ∈ groupKeys xs ↔ a ∈ xs := by
  induction xs with
  | nil => simp [groupKeys]
  | cons y ys ih =>
    simp only [groupKeys, List.foldr_cons] at ih ⊢
    rw [insertKey_mem, ih, List.mem_cons]

theorem insertKey_chain' (x : Int) :
    ∀ l : List Int, List.Chain' (· < ·) l → List.Chain' (· < ·) (insertKey x l)
  | [], _ => List.chain'_singleton x
  | y :: ys, h => by
    simp only [insertKey]
    split_ifs with h1 h2
    · exact List.chain'_cons.mpr ⟨h1, h⟩
    · exact h
    · have hyx : y < x := by
        rcases lt_trichotomy x y with hlt | heq | hgt
        · exact absurd hlt h1
        · exact absurd heq h2
        · exact hgt
      cases ys with
      | nil =>
        simp only [insertKey]
        exact List.chain'_pair.mpr hyx
      | cons z zs =>
        have hyz := (List.chain'_cons.mp h).1
        have ht := (List.chain'_cons.mp h).2
        have ih := insertKey_chain' x (z :: zs) ht
        rw [List.chain'_cons']
        refine ⟨?_, ih⟩
        intro w hw
        simp only [insertKey] at hw
        split_ifs at hw with hc1 hc2
        · simp only [List.head?_cons, Option.mem_def, Option.some.injEq] at hw
          rw [← hw]
          exact hyx
        · simp only [List.head?_cons, Option.mem_def, Option.some.injEq] at hw
          rw [← hw]
          exact hyz
        · simp only [List.head?_cons, Option.mem_def, Option.some.injEq] at hw
          rw [← hw]
          exact hyz

theorem groupKeys_chain' (xs : List Int) : List.Chain' (· < ·) (groupKeys xs) := by
  induction xs with
  | nil => exact List.chain'_nil
  | cons y ys ih => exact insertKey_chain' y (groupKeys ys) ih

theorem groupKeys_nodup (xs : List Int) : (groupKeys xs).Nodup := by
  have h := List.chain'_iff_pairwise.mp (groupKeys_chain' xs)
  exact h.imp (fun hab => ne_of_lt hab)

/-! ### Per-item statistics lemmas -/

theorem perItemStats_eq (df : List WinRow) (i : Int) (r : RawStats)
    (h : perItemStats df i = some r) :
    r.item_id = i ∧
    r.samples = (df.filter (fun w => w.item_id = i)).length ∧
    r.buy_zone = quantileLin (1/4) ((df.filter (fun w => w.item_id = i)).map (·.low)) ∧
    r.sell_zone = quantileLin (3/4) ((df.filter (fun w => w.item_id = i)).map (·.high)) := by
  unfold perItemStats at h
  cases hf : df.filter (fun w => w.item_id = i) with
  | nil =>
    rw [hf] at h
    simp at h
  | cons x xs =>
    rw [hf] at h
    simp only [Option.some.injEq] at h
    subst h
    exact ⟨rfl, rfl, rfl, rfl⟩

theorem flipCandidates_inv (s : Store) (w : Int) (r : RawStats)
    (h : r ∈ flipCandidates s w) :
    0 < r.buy_zone ∧ QuarterGrid r.buy_zone ∧ QuarterGrid r.sell_zone ∧
    QuarterGrid (marginU r) ∧
    r.samples =
      ((load_window_dataframe s w).filter (fun x => x.item_id = r.item_id)).length := by
  simp only [flipCandidates] at h
  by_cases he : (load_window_dataframe s w).isEmpty
  · rw [if_pos he] at h
    exact absurd h (List.not_mem_nil r)
  · rw [if_neg he] at h
    have hm := List.mem_filter.mp h
    have hpos : 0 < r.buy_zone := of_decide_eq_true hm.2
    obtain ⟨i, hi, hps⟩ := List.mem_filterMap.mp hm.1
    obtain ⟨hid, hsamp, hbuy, hsell⟩ := perItemStats_eq _ i r hps
    have hgb : QuarterGrid r.buy_zone := by
      rw [hbuy]
      exact quantileLin_grid (1/4) 1 (by norm_num) _
    have hgs : QuarterGrid r.sell_zone := by
      rw [hsell]
      exact quantileLin_grid (3/4) 3 (by norm_num) _
    refine ⟨hpos, hgb, hgs, hgs.sub hgb, ?_⟩
    rw [hid]
    exact hsamp

/-! ### Maximum-timestamp lemmas -/

theorem foldl_max_init_le : ∀ (l : List Int) (a : Int), a ≤ l.foldl max a
  | [], a => le_refl a
  | y :: ys, a => le_trans (le_max_left a y) (foldl_max_init_le ys (max a y))

theorem foldl_max_mem_le : ∀ (l : List Int) (a x : Int), x ∈ l → x ≤ l.foldl max a
  | [], _, x, hx => absurd hx (List.not_mem_nil x)
  | y :: ys, a, x, hx => by
    rcases List.mem_cons.mp hx with heq | hmem
    · subst heq
      exact le_trans (le_max_right a x) (foldl_max_init_le ys (max a x))
    · exact foldl_max_mem_le ys (max a y) x hmem

theorem listMaxInt_ge (xs : List Int) (m : Int) (h : listMaxInt xs = some m) :
    ∀ x ∈ xs, x ≤ m := by
  cases xs with
  | nil => simp [listMaxInt] at h
  | cons y ys =>
    simp only [listMaxInt, Option.some.injEq] at h
    intro x hx
    rcases List.mem_cons.mp hx with heq | hmem
    · subst heq
      rw [← h]
      exact foldl_max_init_le ys x
    · rw [← h]
      exact foldl_max_mem_le ys y x hmem

/-! ### Sublist helpers -/

theorem flatMap_sublist {α β : Type} (f g : α → List β) :
    ∀ l : List α, (∀ a ∈ l, List.Sublist (f a) (g a)) →
      List.Sublist (l.flatMap f) (l.flatMap g)
  | [], _ => List.nil_sublist []
  | x :: xs, h => by
    simp only [List.flatMap_cons]
    exact (h x (List.mem_cons_self x xs)).append
      (flatMap_sublist f g xs (fun a ha => h a (List.mem_cons_of_mem x ha)))

theorem filterMap_stats_ids_sublist (df : List WinRow) :
    ∀ keys : List Int,
      List.Sublist ((keys.filterMap (perItemStats df)).map (·.item_id)) keys
  | [] => List.nil_sublist []
  | i :: ks => by
    rw [List.filterMap_cons]
    cases hps : perItemStats df i with
    | none => exact List.Sublist.cons i (filterMap_stats_ids_sublist df ks)
    | some r =>
      rw [List.map_cons, (perItemStats_eq df i r hps).1]
      exact List.Sublist.cons₂ i (filterMap_stats_ids_sublist df ks)

/-! ### Candidate-pair helper -/

theorem candPair_mem {s : Store} {w : Int} {p : FlipRow × ℚ}
    (hp : p ∈ (flipCandidates s w).map (fun r => (mkFlipRow r, marginU r))) :
    p.1.margin = roundTo 1 p.2 ∧ QuarterGrid p.2 := by
  obtain ⟨r, hr, hpr⟩ := List.mem_map.mp hp
  obtain ⟨-, -, -, hg, -⟩ := flipCandidates_inv s w r hr
  rw [← hpr]
  exact ⟨rfl, hg⟩

/-- C1: the roundings of `compute_flip_table` are cosmetic for row
selection and ordering: filtering and sorting on the unrounded margins
yields exactly the same output as the code's filtering and sorting on
the rounded margins, for every store and window. -/
theorem rounding_is_cosmetic (s : Store) (w : Int) :
    compute_flip_table_unroundedFS s w = compute_flip_table s w := by
  have hinv : ∀ p ∈ (flipCandidates s w).map (fun r => (mkFlipRow r, marginU r)),
      p.1.margin = roundTo 1 p.2 ∧ QuarterGrid p.2 := fun p hp => candPair_mem hp
  rw [compute_flip_table_unroundedFS, compute_flip_table]
  have hmap : (flipCandidates s w).map mkFlipRow
      = ((flipCandidates s w).map (fun r => (mkFlipRow r, marginU r))).map Prod.fst := by
    rw [List.map_map]
    rfl
  rw [hmap]
  generalize hL : (flipCandidates s w).map (fun r => (mkFlipRow r, marginU r)) = L at hinv
  rw [List.filter_map, sortDesc_map]
  have hfilter : L.filter (fun p => decide (0 < p.2) && decide (5 ≤ p.1.samples))
      = L.filter ((fun r => decide (0 < r.margin) && decide (5 ≤ r.samples)) ∘ Prod.fst) := by
    apply List.filter_congr
    intro p hp
    obtain ⟨hm, hg⟩ := hinv p hp
    simp only [Function.comp_apply]
    congr 1
    rw [decide_eq_decide, hm]
    exact (roundTo_one_pos_iff hg).symm
  rw [hfilter]
  congr 1
  apply sortDesc_congr
  intro a ha b hb
  obtain ⟨hma, hga⟩ := hinv a (List.mem_of_mem_filter ha)
  obtain ⟨hmb, hgb⟩ := hinv b (List.mem_of_mem_filter hb)
  rw [hma, hmb, roundTo_one_le_iff hga hgb]

/-- C5: the output of `compute_flip_table` is sorted by `margin`
descending: every adjacent pair `(A, B)` satisfies
`B.margin <= A.margin`. -/
theorem output_sorted_by_margin (s : Store) (w : Int) :
    List.Chain' (fun A B => B.margin ≤ A.margin) (compute_flip_table s w) := by
  rw [compute_flip_table]
  exact sortDesc_chain' (fun r : FlipRow => r.margin) _

/-- C10: the output of `compute_flip_table` has at most one row per
`item_id`: the list of output `item_id`s is duplicate-free. -/
theorem at_most_one_row_per_item (s : Store) (w : Int) :
    ((compute_flip_table s w).map (·.item_id)).Nodup := by
  rw [compute_flip_table]
  have hperm : (sortDesc (fun r => r.margin)
        (((flipCandidates s w).map mkFlipRow).filter
          (fun r => decide (0 < r.margin) && decide (5 ≤ r.samples)))).Perm
      (((flipCandidates s w).map mkFlipRow).filter
        (fun r => decide (0 < r.margin) && decide (5 ≤ r.samples))) :=
    sortDesc_perm _ _
  apply ((hperm.map (fun r : FlipRow => r.item_id)).symm).nodup
  have hsub1 : List.Sublist
      ((((flipCandidates s w).map mkFlipRow).filter
        (fun r => decide (0 < r.margin) && decide (5 ≤ r.samples))).map
          (fun r : FlipRow => r.item_id))
      ((((flipCandidates s w).map mkFlipRow)).map (fun r : FlipRow => r.item_id)) :=
    (List.filter_sublist _).map _
  apply hsub1.nodup
  rw [List.map_map]
  have hids : ((fun r : FlipRow => r.item_id) ∘ mkFlipRow) = (fun r : RawStats => r.item_id) := rfl
  rw [hids]
  simp only [flipCandidates]
  by_cases he : (load_window_dataframe s w).isEmpty
  · rw [if_pos he]
    exact List.nodup_nil
  · rw [if_neg he]
    have hsub2 : List.Sublist
        (((((groupKeys ((load_window_dataframe s w).map (·.item_id)))).filterMap
          (perItemStats (load_window_dataframe s w))).filter
            (fun r => decide (0 < r.buy_zone))).map (fun r => r.item_id))
        ((((groupKeys ((load_window_dataframe s w).map (·.item_id)))).filterMap
          (perItemStats (load_window_dataframe s w))).map (fun r => r.item_id)) :=
      (List.filter_sublist _).map _
    apply hsub2.nodup
    apply (filterMap_stats_ids_sublist _ _).nodup
    exact groupKeys_nodup _

/-- Every output row comes from a candidate: it is the rounded image of
a `RawStats` record that survived the `buy_zone > 0` guard, and the
rounded-margin/sample filter holds for it. -/
theorem output_row_source (s : Store) (w : Int) (row : FlipRow)
    (h : row ∈ compute_flip_table s w) :
    ∃ r, r ∈ flipCandidates s w ∧ row = mkFlipRow r ∧
      0 < row.margin ∧ 5 ≤ row.samples := by
  rw [compute_flip_table, sortDesc_mem] at h
  have hm := List.mem_filter.mp h
  obtain ⟨r, hr, hrow⟩ := List.mem_map.mp hm.1
  have hb := hm.2
  rw [Bool.and_eq_true, decide_eq_true_eq, decide_eq_true_eq] at hb
  exact ⟨r, hr, hrow.symm, hb.1, hb.2⟩

/-- C4: every output row of `compute_flip_table` has positive margin
and positive buy zone, and its item has at least 5 samples in the
window (the hard-coded `min_samples`): items with fewer window samples
never appear. -/
theorem output_rows_filtered (s : Store) (w : Int) (row : FlipRow)
    (h : row ∈ compute_flip_table s w) :
    0 < row.margin ∧ 0 < row.buy_zone ∧
    5 ≤ ((load_window_dataframe s w).filter
      (fun x => x.item_id = row.item_id)).length := by
  obtain ⟨r, hr, hrow, hmarg, hsamp⟩ := output_row_source s w row h
  obtain ⟨hpos, hgb, -, -, hcount⟩ := flipCandidates_inv s w r hr
  refine ⟨hmarg, ?_, ?_⟩
  · rw [hrow]
    exact roundTo_one_pos hgb hpos
  · have hid : row.item_id = r.item_id := by rw [hrow]; rfl
    have hrs : row.samples = r.samples := by rw [hrow]; rfl
    rw [hid, ← hcount, ← hrs]
    exact hsamp

/-- C2 (amended): `roi_pct` of every output row equals
`round(margin_u / buy_zone_u * 100, 2)` computed from the **unrounded**
margin and buy zone of the row's surviving candidate — not from the
row's own rounded `margin` and `buy_zone` fields. -/
theorem roi_pct_from_unrounded (s : Store) (w : Int) (row : FlipRow)
    (h : row ∈ compute_flip_table s w) :
    ∃ r, r ∈ flipCandidates s w ∧ row = mkFlipRow r ∧
      row.roi_pct = roundTo 2 (marginU r / r.buy_zone * 100) ∧
      row.margin = roundTo 1 (marginU r) ∧
      row.buy_zone = roundTo 1 r.buy_zone := by
  obtain ⟨r, hr, hrow, -, -⟩ := output_row_source s w row h
  refine ⟨r, hr, hrow, ?_, ?_, ?_⟩
  · rw [hrow]
    rfl
  · rw [hrow]
    rfl
  · rw [hrow]
    rfl

/-- C9: with the store (hence `max_scan_timestamp`) fixed, widening the
window never shrinks any item's candidate sample pool: for
`w1 <= w2` every item's selected samples under `w1` form a sublist of
those selected under `w2`. -/
theorem window_monotonicity (s : Store) (w1 w2 : Int) (h : w1 ≤ w2) (i : Int) :
    List.Sublist
      ((load_window_dataframe s w1).filter (fun r => r.item_id = i))
      ((load_window_dataframe s w2).filter (fun r => r.item_id = i)) := by
  have hload : List.Sublist (load_window_dataframe s w1) (load_window_dataframe s w2) := by
    rw [load_window_dataframe, load_window_dataframe, get_window_bounds, get_window_bounds]
    cases hmax : max_scan_timestamp s with
    | none => exact List.nil_sublist _
    | some m =>
      apply flatMap_sublist
      intro p hp
      cases hh : p.high with
      | none => exact List.nil_sublist _
      | some hv =>
        cases hl : p.low with
        | none => exact List.nil_sublist _
        | some lv =>
          dsimp only
          by_cases hin : m - w1 * 60 ≤ p.scan_ts
          · have hin2 : m - w2 * 60 ≤ p.scan_ts := by nlinarith
            rw [if_pos hin, if_pos hin2]
          · rw [if_neg hin]
            exact List.nil_sublist _
  exact hload.filter _

/-- C8: both degenerate states are ordinary empty results: an empty
store (no `max_scan_timestamp`) and an empty window both make
`compute_flip_table` return the empty list (the embedding is a total
function, so no exception is possible). -/
theorem empty_store_empty_window (s : Store) (w : Int) :
    (max_scan_timestamp s = none → compute_flip_table s w = []) ∧
    (load_window_dataframe s w = [] → compute_flip_table s w = []) := by
  constructor
  · intro hmax
    have hload : load_window_dataframe s w = [] := by
      rw [load_window_dataframe, get_window_bounds, hmax]
    rw [compute_flip_table, flipCandidates, hload]
    rfl
  · intro hload
    rw [compute_flip_table, flipCandidates, hload]
    rfl

/-- C3 (amended): `compute_flip_table` performs no input validation: a
non-positive `window_minutes` is processed by the normal pipeline (and
`min_samples` is not a parameter at all — the threshold 5 is
hard-coded). For any negative window the window start lies beyond the
maximum timestamp, so the ordinary computation returns the empty list —
no error is signalled. -/
theorem negative_window_normal_empty (s : Store) (w : Int) (h : w < 0) :
    compute_flip_table s w = [] := by
  apply (empty_store_empty_window s w).2
  rw [load_window_dataframe, get_window_bounds]
  cases hmax : max_scan_timestamp s with
  | none => rfl
  | some m =>
    apply List.flatMap_eq_nil_iff.mpr
    intro p hp
    cases hh : p.high with
    | none => rfl
    | some hv =>
      cases hl : p.low with
      | none => rfl
      | some lv =>
        have hle : p.scan_ts ≤ m := by
          apply listMaxInt_ge _ m hmax
          exact List.mem_map_of_mem (fun x => x.scan_ts) hp
        have hgt : ¬ (m - w * 60 ≤ p.scan_ts) := by nlinarith
        dsimp only
        rw [if_neg hgt]

/-- C7 (amended): a row is in the loaded window DataFrame iff it comes
from a stored sample with `scan_ts >= window_start`, both quotes
present, **and** a matching `items` row (the inner join the claim
omits); and every loaded row's `spread` is exactly `high - low`,
unclamped (so it can be negative). -/
theorem loader_characterization (s : Store) (w : Int) (r : WinRow) :
    (r ∈ load_window_dataframe s w ↔
      ∃ ws p i, get_window_bounds s w = some ws ∧ p ∈ s.prices ∧ i ∈ s.items ∧
        i.id = p.item_id ∧ ws ≤ p.scan_ts ∧
        p.high = some r.high ∧ p.low = some r.low ∧
        r = toWinRow p i r.high r.low) ∧
    (r ∈ load_window_dataframe s w → r.spread = r.high - r.low) := by
  have hiff : r ∈ load_window_dataframe s w ↔
      ∃ ws p i, get_window_bounds s w = some ws ∧ p ∈ s.prices ∧ i ∈ s.items ∧
        i.id = p.item_id ∧ ws ≤ p.scan_ts ∧
        p.high = some r.high ∧ p.low = some r.low ∧
        r = toWinRow p i r.high r.low := by
    rw [load_window_dataframe]
    cases hb : get_window_bounds s w with
    | none => simp
    | some ws =>
      rw [List.mem_flatMap]
      constructor
      · rintro ⟨p, hp, hr⟩
        cases hh : p.high with
        | none =>
          rw [hh] at hr
          cases hl : p.low with
          | none =>
            rw [hl] at hr
            exact absurd hr (List.not_mem_nil r)
          | some lv =>
            rw [hl] at hr
            exact absurd hr (List.not_mem_nil r)
        | some hv =>
          cases hl : p.low with
          | none =>
            rw [hh, hl] at hr
            exact absurd hr (List.not_mem_nil r)
          | some lv =>
            rw [hh, hl] at hr
            dsimp only at hr
            by_cases hin : ws ≤ p.scan_ts
            · rw [if_pos hin] at hr
              obtain ⟨i, hi, hri⟩ := List.mem_map.mp hr
              have hif := List.mem_filter.mp hi
              have hid : i.id = p.item_id := of_decide_eq_true hif.2
              refine ⟨ws, p, i, rfl, hp, hif.1, hid, hin, ?_, ?_, ?_⟩
              · rw [hh, ← hri]
                rfl
              · rw [hl, ← hri]
                rfl
              · rw [← hri]
                rfl
            · rw [if_neg hin] at hr
              exact absurd hr (List.not_mem_nil r)
      · rintro ⟨ws2, p, i, hws, hp, hi, hid, hin, hph, hpl, hr⟩
        have hws2 : ws2 = ws := by
          injection hws with h
          exact h.symm
        subst hws2
        refine ⟨p, hp, ?_⟩
        rw [hph, hpl]
        dsimp only
        rw [if_pos hin]
        exact List.mem_map.mpr ⟨i, List.mem_filter.mpr ⟨hi, decide_eq_true hid⟩, hr.symm⟩
  refine ⟨hiff, fun hmem => ?_⟩
  obtain ⟨ws, p, i, -, -, -, -, -, -, -, hr⟩ := hiff.mp hmem
  rw [hr]
  rfl

/-! ### Concrete stores for counterexamples and witnesses -/

/-- Five samples of one item with constant quotes: survives every
filter of `compute_flip_table`. -/
def S5ok : Store :=
  { prices := [⟨0, 1, some 110, some 80⟩, ⟨60, 1, some 110, some 80⟩,
               ⟨120, 1, some 110, some 80⟩, ⟨180, 1, some 110, some 80⟩,
               ⟨240, 1, some 110, some 80⟩],
    items := [⟨1, "Abyssal whip", 1, some 70, some 120⟩] }

/-- The single output row of `compute_flip_table S5ok 240`. -/
def rowS5 : FlipRow :=
  ⟨1, "Abyssal whip", 1, some 70, some 120, 5, 110, 80, 30, 30, 30, 80, 110, 30, 75/2⟩

/-- The raw (unrounded) per-item statistics behind `rowS5`. -/
def rawS5 : RawStats :=
  ⟨1, "Abyssal whip", 1, some 70, some 120, 30, 30, 5, 110, 80, 30, 80, 110⟩

/-- Six samples of one item whose 25th percentile of lows is 81.25, a
value that rounding moves: used to refute re-derivability of
`roi_pct` from the rounded row fields. -/
def S2cx : Store :=
  { prices := [⟨0, 1, some 110, some 80⟩, ⟨60, 1, some 110, some 81⟩,
               ⟨120, 1, some 110, some 82⟩, ⟨180, 1, some 110, some 83⟩,
               ⟨240, 1, some 110, some 84⟩, ⟨300, 1, some 110, some 85⟩],
    items := [⟨1, "Zulrah scale", 0, some 30000, some 200⟩] }

/-- The single output row of `compute_flip_table S2cx 240`:
`buy_zone = 81.2` (rounded from 81.25), `margin = 28.8` (rounded from
28.75), `roi_pct = 35.38` (computed from the unrounded values). -/
def rowS2 : FlipRow :=
  ⟨1, "Zulrah scale", 0, some 30000, some 200, 6, 110, 85, 25, 55/2, 30, 406/5, 110,
   144/5, 1769/50⟩

/-- The spec's worked example: two samples of item X at `T-60` and `T`
with `(high=100, low=80)` and `(high=110, low=90)`. -/
def S6ex : Store :=
  { prices := [⟨0, 1, some 100, some 80⟩, ⟨60, 1, some 110, some 90⟩],
    items := [⟨1, "X", 1, some 100, some 1⟩] }

/-- The per-item statistics of the spec's worked example:
`current_high = 110`, `current_low = 90`, `current_spread = 20`,
`avg_spread = 20`, `max_spread = 20`, `buy_zone = 82.5`,
`sell_zone = 107.5`, `sample_count = 2`. -/
def rawS6 : RawStats :=
  ⟨1, "X", 1, some 100, some 1, 20, 20, 2, 110, 90, 20, 165/2, 215/2⟩

/-- A store holding a sample for item 2 that has no `items` row, and a
sample for item 1 whose high is below its low (negative spread). -/
def S7cx : Store :=
  { prices := [⟨100, 1, some 3, some 5⟩, ⟨100, 2, some 5, some 3⟩],
    items := [⟨1, "A", 0, none, none⟩] }

/-- The row `load_window_dataframe S7cx 240` produces for item 1: its
spread is `3 - 5 = -2`, negative and unclamped. -/
def rS7 : WinRow := ⟨1, 100, 3, 5, "A", 0, none, none, -2⟩

/-- Modelled from the spec: §4.2's filtering rules with a
caller-supplied `min_samples` — the source has no such parameter (the
threshold 5 is hard-coded in `compute_flip_table`), so the spec's
filter is reconstructed here from its words: keep a row iff
`buy_zone > 0`, `margin > 0` and `sample_count >= min_samples`. -/
def specFiltersKeep (buy_zone margin : ℚ) (sample_count min_samples : Nat) : Bool :=
  decide (0 < buy_zone) && decide (0 < margin) && decide (min_samples ≤ sample_count)

/-! ### Concrete evaluations: counterexamples and witnesses -/

/-- C2 (counterexample): in the only output row of
`compute_flip_table S2cx 240`, `roi_pct = 35.38` but
`round(margin / buy_zone * 100, 2)` over the row's own (rounded)
`margin = 28.8` and `buy_zone = 81.2` is `35.47`: `roi_pct` is not
re-derivable from the row's fields. -/
theorem roi_not_rederivable_cx :
    compute_flip_table S2cx 240 = [rowS2] ∧
    rowS2.roi_pct = 1769/50 ∧
    roundTo 2 (rowS2.margin / rowS2.buy_zone * 100) = 3547/100 ∧
    rowS2.roi_pct ≠ roundTo 2 (rowS2.margin / rowS2.buy_zone * 100) := by
  norm_num [S2cx, rowS2, compute_flip_table, flipCandidates, load_window_dataframe,
    get_window_bounds, max_scan_timestamp, listMaxInt, List.foldl, List.flatMap,
    List.filter, toWinRow, groupKeys, insertKey, List.filterMap, perItemStats,
    quantileLin, sortAscInt, insertAsc, List.isEmpty, mkFlipRow, marginU, roundTo,
    roundHalfEven, sortDesc, insertDesc, Int.toNat, List.getD, Int.fract]

/-- Witness for `roi_pct_from_unrounded` at the concrete store `S5ok`:
its output row's `roi_pct` is the 2-decimal rounding of the unrounded
ROI of its candidate. -/
theorem roi_pct_from_unrounded_witness :
    rowS5.roi_pct = roundTo 2 (marginU rawS5 / rawS5.buy_zone * 100) := by
  have hcand : flipCandidates S5ok 240 = [rawS5] := by
    norm_num [S5ok, rawS5, flipCandidates, load_window_dataframe, get_window_bounds,
      max_scan_timestamp, listMaxInt, List.foldl, List.flatMap, List.filter, toWinRow,
      groupKeys, insertKey, List.filterMap, perItemStats, quantileLin, sortAscInt,
      insertAsc, List.isEmpty, Int.toNat, List.getD, Int.fract]
  have hmem : rowS5 ∈ compute_flip_table S5ok 240 := by
    have heval : compute_flip_table S5ok 240 = [rowS5] := by
      norm_num [S5ok, rowS5, compute_flip_table, flipCandidates, load_window_dataframe,
        get_window_bounds, max_scan_timestamp, listMaxInt, List.foldl, List.flatMap,
        List.filter, toWinRow, groupKeys, insertKey, List.filterMap, perItemStats,
        quantileLin, sortAscInt, insertAsc, List.isEmpty, mkFlipRow, marginU, roundTo,
        roundHalfEven, sortDesc, insertDesc, Int.toNat, List.getD, Int.fract]
    rw [heval]
    exact List.mem_singleton.mpr rfl
  obtain ⟨r, hr, -, hroi, -, -⟩ := roi_pct_from_unrounded S5ok 240 rowS5 hmem
  rw [hcand, List.mem_singleton] at hr
  subst hr
  exact hroi

/-- C3 (counterexample): the non-positive window `0` is not rejected at
the boundary: the loader query still runs against the store (returning
the latest-timestamp sample) and `compute_flip_table` returns an
ordinary empty table produced by the sample-count filter, not an
error. -/
theorem nonpositive_window_queries_store_cx :
    load_window_dataframe S5ok 0 =
      [⟨1, 240, 110, 80, "Abyssal whip", 1, some 70, some 120, 30⟩] ∧
    compute_flip_table S5ok 0 = [] := by
  norm_num [S5ok, compute_flip_table, flipCandidates, load_window_dataframe,
    get_window_bounds, max_scan_timestamp, listMaxInt, List.foldl, List.flatMap,
    List.filter, toWinRow, groupKeys, insertKey, List.filterMap, perItemStats,
    quantileLin, sortAscInt, insertAsc, List.isEmpty, mkFlipRow, marginU, roundTo,
    roundHalfEven, sortDesc, insertDesc, Int.toNat, List.getD, Int.fract]

/-- Witness for `negative_window_normal_empty` at the concrete store
`S5ok` and window `-1`. -/
theorem negative_window_normal_empty_witness :
    compute_flip_table S5ok (-1) = [] :=
  negative_window_normal_empty S5ok (-1) (by norm_num)

/-- Witness for `output_rows_filtered` at the concrete store `S5ok`:
its one output row has positive margin, positive buy zone, and at
least 5 window samples for its item. -/
theorem output_rows_filtered_witness :
    0 < rowS5.margin ∧ 0 < rowS5.buy_zone ∧
    5 ≤ ((load_window_dataframe S5ok 240).filter
      (fun x => x.item_id = rowS5.item_id)).length := by
  apply output_rows_filtered S5ok 240 rowS5
  have heval : compute_flip_table S5ok 240 = [rowS5] := by
    norm_num [S5ok, rowS5, compute_flip_table, flipCandidates, load_window_dataframe,
      get_window_bounds, max_scan_timestamp, listMaxInt, List.foldl, List.flatMap,
      List.filter, toWinRow, groupKeys, insertKey, List.filterMap, perItemStats,
      quantileLin, sortAscInt, insertAsc, List.isEmpty, mkFlipRow, marginU, roundTo,
      roundHalfEven, sortDesc, insertDesc, Int.toNat, List.getD, Int.fract]
  rw [heval]
  exact List.mem_singleton.mpr rfl

/-- C6 (amended): on the spec's two-sample example the per-item values
are exactly as stated (`current_high = 110`, `current_low = 90`,
`current_spread = 20`, `avg_spread = 20`, `max_spread = 20`,
`buy_zone = 82.5`, `sell_zone = 107.5`, `margin = 25`,
`roi_pct = 30.3`), and the row is excluded from the output because its
sample count 2 is below the hard-coded threshold 5 (`min_samples` is
not a parameter of `compute_flip_table`). -/
theorem example_two_samples_values :
    flipCandidates S6ex 240 = [rawS6] ∧
    marginU rawS6 = 25 ∧
    rawS6.buy_zone = 165/2 ∧
    rawS6.sell_zone = 215/2 ∧
    roundTo 2 (marginU rawS6 / rawS6.buy_zone * 100) = 303/10 ∧
    rawS6.samples = 2 ∧
    compute_flip_table S6ex 240 = [] := by
  norm_num [S6ex, rawS6, compute_flip_table, flipCandidates, load_window_dataframe,
    get_window_bounds, max_scan_timestamp, listMaxInt, List.foldl, List.flatMap,
    List.filter, toWinRow, groupKeys, insertKey, List.filterMap, perItemStats,
    quantileLin, sortAscInt, insertAsc, List.isEmpty, mkFlipRow, marginU, roundTo,
    roundHalfEven, sortDesc, insertDesc, Int.toNat, List.getD, Int.fract]

/-- C6 (counterexample): under the spec's own filtering rule with
`min_samples = 2` the example row (buy zone 82.5, margin 25, sample
count 2) is **kept** — `2 < 2` is false — yet the code's output is
empty; so the claimed reason for exclusion ("sample_count = 2 <
min_samples" with `min_samples = 2`) contradicts both the spec's rule
and the code, whose actual gate is the hard-coded 5. -/
theorem example_min_samples_spec_filter_cx :
    specFiltersKeep (165/2) 25 2 2 = true ∧
    compute_flip_table S6ex 240 = [] := by
  norm_num [S6ex, specFiltersKeep, compute_flip_table, flipCandidates,
    load_window_dataframe, get_window_bounds, max_scan_timestamp, listMaxInt,
    List.foldl, List.flatMap, List.filter, toWinRow, groupKeys, insertKey,
    List.filterMap, perItemStats, quantileLin, sortAscInt, insertAsc, List.isEmpty,
    mkFlipRow, marginU, roundTo, roundHalfEven, sortDesc, insertDesc, Int.toNat,
    List.getD, Int.fract]

/-- C7 (counterexample): the sample `(scan_ts=100, item_id=2, high=5,
low=3)` is in the store, lies inside the window and has both quotes
present, yet no loaded row carries `item_id = 2` — the claimed
"included iff in-window and quotes present" omits the required join to
an `items` row. -/
theorem loader_requires_item_match_cx :
    (⟨100, 2, some 5, some 3⟩ : PriceRow) ∈ S7cx.prices ∧
    get_window_bounds S7cx 240 = some (-14300) ∧
    ((-14300 : Int) ≤ 100) ∧
    (load_window_dataframe S7cx 240).filter (fun r => r.item_id = 2) = [] := by
  norm_num [S7cx, load_window_dataframe, get_window_bounds, max_scan_timestamp,
    listMaxInt, List.foldl, List.flatMap, List.filter, toWinRow, Int.fract]

/-- Witness for `loader_characterization` at the concrete store
`S7cx`: the loaded row for item 1 satisfies `spread = high - low`
(= `3 - 5 = -2`, negative and unclamped). -/
theorem loader_characterization_witness :
    rS7.spread = rS7.high - rS7.low := by
  apply (loader_characterization S7cx 240 rS7).2
  have heval : load_window_dataframe S7cx 240 = [rS7] := by
    norm_num [S7cx, rS7, load_window_dataframe, get_window_bounds, max_scan_timestamp,
      listMaxInt, List.foldl, List.flatMap, List.filter, toWinRow, Int.fract]
  rw [heval]
  exact List.mem_singleton.mpr rfl

/-- Witness for `empty_store_empty_window` at the empty store. -/
theorem empty_store_empty_window_witness :
    compute_flip_table ⟨[], []⟩ 240 = [] :=
  (empty_store_empty_window ⟨[], []⟩ 240).1 (by
    norm_num [max_scan_timestamp, listMaxInt])

/-- Witness for `window_monotonicity` at the concrete store `S5ok`
with windows 60 and 240. -/
theorem window_monotonicity_witness :
    List.Sublist
      ((load_window_dataframe S5ok 60).filter (fun r => r.item_id = 1))
      ((load_window_dataframe S5ok 240).filter (fun r => r.item_id = 1)) :=
  window_monotonicity S5ok 60 240 (by norm_num) 1
